import Mathlib

/-!
Verification of the ticket aggregation core of the `linear-agent` repository:
the Ticket data model (`src/models.rs`), the markdown Text Encoder
(`src/main.rs`, the `ticket_file_content` construction), the markdown Text
Decoder (`Ticket::from_markdown` in `src/models.rs`) and the Enrichment
Fan-Out (`LinearClient::enrich_ticket` in `src/linear.rs`).

Rust strings are modelled as lists of characters (`Str := List Char`);
every string primitive the source uses (`starts_with`, `contains`,
`trim_start_matches`, `trim_end_matches`, `trim`, `split`, `splitn`,
`str::lines`, integer/float `parse`, `Display`) is given an executable
definition over `Str` that follows the Rust semantics.
-/

/-- Character-list model of a Rust `String` / `&str`. -/
abbrev Str := List Char

namespace LinearAgent

/-- Model of Rust `str::starts_with` (the first argument is the pattern). -/
def isPrefixL : Str → Str → Bool
  | [], _ => true
  | _ :: _, [] => false
  | a :: as, b :: bs => a = b && isPrefixL as bs

/-- Model of Rust `str::contains` with a string pattern: the pattern occurs
as a contiguous substring (a match at any position; the empty pattern always
matches, as in Rust). -/
def containsL (pat : Str) : Str → Bool
  | [] => isPrefixL pat []
  | c :: rest => isPrefixL pat (c :: rest) || containsL pat rest

/-- Removes `p` from the front of `l` if it is a prefix, returning the rest;
`none` when `p` is not a prefix. -/
def dropPre : Str → Str → Option Str
  | [], l => some l
  | _ :: _, [] => none
  | a :: as, b :: bs => if a = b then dropPre as bs else none

/-- Fuel-driven worker for `trimStartL`; the fuel bounds the number of
pattern removals and is chosen large enough by the wrapper. -/
def trimStartFuel (p : Str) : Nat → Str → Str
  | 0, l => l
  | fuel + 1, l =>
    if p = [] then l
    else
      match dropPre p l with
      | some r => trimStartFuel p fuel r
      | none => l

/-- Model of Rust `str::trim_start_matches`: repeatedly removes the pattern
from the front while it is a prefix (an empty pattern removes nothing). -/
def trimStartL (p l : Str) : Str :=
  trimStartFuel p l.length l

/-- Model of Rust `str::trim_end_matches`: repeatedly removes the pattern
from the back while it is a suffix. -/
def trimEndL (p l : Str) : Str :=
  (trimStartL p.reverse l.reverse).reverse

/-- The whitespace characters the program's documents can contain; Rust
`str::trim` removes any `char::is_whitespace` character, which on this
document alphabet is exactly these. -/
def isWsChar (c : Char) : Bool :=
  c = ' ' || c = '\t' || c = '\n' || c = '\r'

/-- Model of Rust `str::trim`. -/
def trimL (l : Str) : Str :=
  ((l.dropWhile isWsChar).reverse.dropWhile isWsChar).reverse

/-- Model of Rust `str::splitn(2, pat)` with a nonempty pattern: split at
the first match only; when the pattern does not occur the result is the
one-element list. -/
def splitN2L (pat : Str) : Str → List Str
  | [] => if isPrefixL pat [] then [[], []] else [[]]
  | c :: rest =>
    if isPrefixL pat (c :: rest) then [[], (c :: rest).drop pat.length]
    else
      match splitN2L pat rest with
      | [a, b] => [c :: a, b]
      | _ => [c :: rest]

/-- Fuel-driven worker for `splitOnL`: repeatedly split at the first match.
The fuel bounds the number of matches and is chosen large enough by the
wrapper. -/
def splitOnFuel (pat : Str) : Nat → Str → List Str
  | 0, l => [l]
  | fuel + 1, l =>
    match splitN2L pat l with
    | [a, b] => a :: splitOnFuel pat fuel b
    | _ => [l]

/-- Model of Rust `str::split` with a nonempty string pattern: leftmost,
non-overlapping matches. -/
def splitOnL (pat : Str) (l : Str) : List Str :=
  if pat = [] then [l] else splitOnFuel pat l.length l

/-- Prepend a character to the first line of a line list (starting a new
line when there is none). -/
def consHead (c : Char) : List Str → List Str
  | [] => [[c]]
  | s :: ss => (c :: s) :: ss

/-- Model of Rust `str::lines`: splits at `\n` or `\r\n`; the final line
ending is optional, and a lone trailing `\r` (with no following `\n`) is
kept, following the Rust implementation. -/
def rustLinesL : Str → List Str
  | [] => []
  | [c] => if c = '\n' then [[]] else [[c]]
  | c :: d :: rest =>
    if c = '\n' then [] :: rustLinesL (d :: rest)
    else if c = '\r' ∧ d = '\n' then [] :: rustLinesL rest
    else consHead c (rustLinesL (d :: rest))

/-- Digit characters to their numeric value. -/
def digitVal (c : Char) : Nat := c.toNat - 48

/-- Is `c` an ASCII digit, as Rust's numeric `FromStr` accepts. -/
def isDigitCh (c : Char) : Bool := '0' ≤ c && c ≤ '9'

/-- Numeric value of a digit string (most significant first). -/
def natOfDigits (l : Str) : Nat :=
  l.foldl (fun a c => a * 10 + digitVal c) 0

/-- Model of Rust `i32::from_str` as used by `"...".parse::<i32>()`:
an optional sign, then one or more ASCII digits and nothing else; values
outside the `i32` range are an overflow error (`none`). -/
def rustParseI32 (l : Str) : Option Int :=
  let (neg, ds) :=
    match l with
    | '-' :: rest => (true, rest)
    | '+' :: rest => (false, rest)
    | _ => (false, l)
  if ds = [] || !(ds.all isDigitCh) then none
  else
    let n : Int := (natOfDigits ds : Nat)
    let v : Int := if neg then -n else n
    if v < -(2 ^ 31) || v > 2 ^ 31 - 1 then none else some v

/-- Decimal digit string of a natural number (model of Rust integer
`Display`). -/
def natStr (n : Nat) : Str := (toString n).data

/-- Model of Rust `i32` `Display`. -/
def intStr (i : Int) : Str := (toString i).data

/-- The program's `f64` values are modelled as exact rationals: every finite
`f64` is a rational with a terminating decimal expansion, and the program
only displays and re-parses such values. -/
abbrev F64 := ℚ

/-- Least number of decimal places under which `q` scales to an integer
(searched up to 400, which covers every finite `f64`): the least `k` with
`q.den` dividing `10^k`. -/
def decPlaces (q : ℚ) : Option Nat :=
  (List.range 400).find? (fun k => 10 ^ k % q.den = 0)

/-- Left-pad a digit string with zeros to the given length. -/
def padZeros (k : Nat) (l : Str) : Str :=
  List.replicate (k - l.length) '0' ++ l

/-- Model of Rust `f64` `Display` (`e.to_string()`): the shortest decimal
digit string that denotes the value, with no fractional part for integral
values and no exponent notation, matching Rust's behaviour on the values
this program handles. Rationals with no terminating decimal expansion are
not `f64` values; for totality they render as their integer quotient. -/
def f64Str (q : ℚ) : Str :=
  match decPlaces q with
  | some 0 => intStr q.num
  | some (k + 1) =>
    let sgn : Str := if q.num < 0 then ['-'] else []
    let scaled : Nat := q.num.natAbs * (10 ^ (k + 1) / q.den)
    let ds := padZeros (k + 2) (natStr scaled)
    sgn ++ (ds.take (ds.length - (k + 1)) ++ '.' :: ds.drop (ds.length - (k + 1)))
  | none => intStr (q.num / (q.den : Int))

/-- Model of Rust `f64::from_str` as used by `"...".parse::<f64>()` on the
decimal forms this program produces: an optional sign, a decimal mantissa
with at least one digit, and an optional exponent. The value is the exact
rational denoted (finite `f64` parsing of such strings is exact on the
program's round-tripped values). Forms denoting non-rationals (`inf`,
`NaN`) are modelled as a parse failure. -/
def rustParseF64 (l : Str) : Option ℚ :=
  let (neg, rest) :=
    match l with
    | '-' :: r => (true, r)
    | '+' :: r => (false, r)
    | _ => (false, l)
  let ip := rest.takeWhile isDigitCh
  let rest1 := rest.drop ip.length
  let (fp, rest2) :=
    match rest1 with
    | '.' :: r => (r.takeWhile isDigitCh, r.drop (r.takeWhile isDigitCh).length)
    | _ => ([], rest1)
  if ip = [] && fp = [] then none
  else
    let mn : Nat := natOfDigits (ip ++ fp)
    let sn : Int := if neg then -(mn : Int) else (mn : Int)
    let mkVal (eplus eminus : Nat) : ℚ :=
      mkRat (sn * (10 : Int) ^ eplus) (10 ^ (fp.length + eminus))
    match rest2 with
    | [] => some (mkVal 0 0)
    | 'e' :: er | 'E' :: er =>
      match er with
      | '-' :: ds =>
        if ds ≠ [] && ds.all isDigitCh then some (mkVal 0 (natOfDigits ds)) else none
      | '+' :: ds =>
        if ds ≠ [] && ds.all isDigitCh then some (mkVal (natOfDigits ds) 0) else none
      | ds =>
        if ds ≠ [] && ds.all isDigitCh then some (mkVal (natOfDigits ds) 0) else none
    | _ => none

/-- Model of `chrono::DateTime<Utc>`: a calendar day together with the
time-of-day remainder. `ymd` is the `%Y-%m-%d` rendering of the day and
`tod` carries everything finer; two instants are equal exactly when both
components agree. -/
structure Timestamp where
  ymd : Str
  tod : Str
deriving DecidableEq, Repr

/-- The fixed fallback instant
`DateTime::parse_from_rfc3339("2021-01-01T00:00:00Z").unwrap()` used by the
decoder for comment dates. -/
def sentinel2021 : Timestamp :=
  { ymd := "2021-01-01".data, tod := "00:00:00Z".data }

/-- Model of `chrono::DateTime::parse_from_str(s, "%Y-%m-%d")`: the format
string contains no time-of-day and no UTC-offset specifiers, so chrono's
`Parsed` value can never be completed to a full `DateTime` and the call
returns an error for every input string. -/
def parseFromStrYmd (_s : Str) : Option Timestamp := none

/-- The `created_at` given to a decoded comment (models lines 153–160 and
215–219 of `src/models.rs`): parse the stored date string with `%Y-%m-%d`,
falling back to the 2021-01-01 sentinel. -/
def commentCreatedAt (d : Str) : Timestamp :=
  match parseFromStrYmd d with
  | some ts => ts
  | none => sentinel2021

/-- The `Ticket` aggregate of `src/models.rs`. -/
structure Comment where
  id : Str
  body : Str
  created_at : Timestamp
  user : Option Str
deriving DecidableEq, Repr

/-- The `RelatedTicket` projection of `src/models.rs`. -/
structure RelatedTicket where
  id : Str
  title : Str
  state : Str
  assignee : Option Str
deriving DecidableEq, Repr

/-- The `Ticket` record of `src/models.rs`. -/
structure Ticket where
  id : Str
  title : Str
  description : Str
  priority : Int
  estimate : Option F64
  labels : List Str
  url : Str
  state : Str
  created_at : Timestamp
  updated_at : Timestamp
  assignee : Option Str
  comments : List Comment
  parent : Option RelatedTicket
  children : List RelatedTicket
  related_tickets : List RelatedTicket
deriving DecidableEq, Repr

/-! ### Literal strings of the document format -/

def litTitleTag : Str := "# Ticket: ".data
def litTicketId : Str := "**Ticket ID:**".data
def litStateTag : Str := "**State:**".data
def litPriorityTag : Str := "**Priority:**".data
def litEstimateTag : Str := "**Estimate:**".data
def litUrlTag : Str := "**URL:**".data
def litLabelsTag : Str := "**Labels:**".data
def litDescHeading : Str := "## Description".data
def litCommentsHeading : Str := "## Comments".data
def litRelatedHeading : Str := "## Related Tickets".data
def litChildHeading : Str := "## Child Tickets".data
def litDash : Str := "- ".data
def litParen : Str := "(".data
def litParenColon : Str := "): ".data
def litColonSp : Str := ": ".data
def litSpParen : Str := " (".data
def litParenState : Str := "(State: ".data
def litSpParenState : Str := " (State: ".data
def litRParen : Str := ")".data
def litCommaSp : Str := ", ".data
def litNone : Str := "None".data
def litNotEstimated : Str := "Not estimated".data
def litUnknown : Str := "Unknown".data
def litFromFile : Str := "from_file_".data
def litPlaceholder : Str := "placeholder_".data
def litMissingTitle : Str := "Missing title line".data

/-! ### Text Decoder (`Ticket::from_markdown`, `src/models.rs` 73–243) -/

/-- The mutable locals of the parsing loop of `Ticket::from_markdown`
(`src/models.rs` 81–96). -/
structure PState where
  id : Str := []
  description : Str := []
  priority : Int := 0
  estimate : Option F64 := none
  labels : List Str := []
  url : Str := []
  state : Str := []
  in_description_section : Bool := false
  comment_section_start : Bool := false
  comments : List Comment := []
  current_comment : Str := []
  comment_user : Option Str := none
  comment_date : Option Str := none
  related_tickets : List RelatedTicket := []
  children : List RelatedTicket := []
deriving DecidableEq, Repr

/-- Finalize the in-progress comment if any (the duplicated push at
`src/models.rs` 149–164 and 211–222): a comment is pushed only when the
accumulated body is nonempty and both user and date were captured; its id
is the position-based `from_file_<n>` and its `created_at` comes from
`commentCreatedAt`. -/
def pushPending (st : PState) : PState :=
  if st.current_comment ≠ [] ∧ st.comment_user.isSome ∧ st.comment_date.isSome then
    { st with
      comments := st.comments ++
        [{ id := litFromFile ++ natStr st.comments.length,
           body := trimL st.current_comment,
           created_at := commentCreatedAt (st.comment_date.getD []),
           user := st.comment_user }],
      current_comment := [] }
  else st

/-- One iteration of the `for line in lines` loop of `Ticket::from_markdown`
(`src/models.rs` 99–208), with the branches in source order. -/
def step (st : PState) (line : Str) : PState :=
  if isPrefixL litTicketId line then
    { st with id := trimL (trimStartL litTicketId line) }
  else if isPrefixL litStateTag line then
    { st with state := trimL (trimStartL litStateTag line) }
  else if isPrefixL litPriorityTag line then
    { st with priority := (rustParseI32 (trimL (trimStartL litPriorityTag line))).getD 0 }
  else if isPrefixL litEstimateTag line then
    let es := trimL (trimStartL litEstimateTag line)
    if containsL litNotEstimated es then st else { st with estimate := rustParseF64 es }
  else if isPrefixL litUrlTag line then
    { st with url := trimL (trimStartL litUrlTag line) }
  else if isPrefixL litLabelsTag line then
    let ls := trimL (trimStartL litLabelsTag line)
    if ls = litNone then st else { st with labels := splitOnL litCommaSp ls }
  else if containsL litDescHeading line then
    { st with in_description_section := true }
  else if containsL litCommentsHeading line then
    { st with in_description_section := false, comment_section_start := true }
  else if containsL litRelatedHeading line then
    { st with comment_section_start := false }
  else if containsL litChildHeading line then
    st
  else if st.in_description_section then
    { st with description := if st.description = [] then line else st.description ++ '\n' :: line }
  else if st.comment_section_start && isPrefixL litDash line && containsL litParen line
      && containsL litParenColon line then
    let st1 := pushPending st
    match splitN2L litColonSp line with
    | [header, content] =>
      match splitOnL litSpParen (trimStartL litDash header) with
      | [u, d] =>
        { st1 with comment_user := some u, comment_date := some (trimEndL litRParen d),
                   current_comment := content }
      | _ => st1
    | _ => st1
  else if isPrefixL litDash line && containsL litParenState line then
    match splitOnL litSpParenState (trimStartL litDash line) with
    | [ti, stt] =>
      if containsL litRelatedHeading line then
        { st with related_tickets := st.related_tickets ++
            [{ id := litPlaceholder ++ natStr st.related_tickets.length, title := ti,
               state := trimEndL litRParen stt, assignee := none }] }
      else
        { st with children := st.children ++
            [{ id := litPlaceholder ++ natStr st.children.length, title := ti,
               state := trimEndL litRParen stt, assignee := none }] }
    | _ => st
  else st

/-- `Ticket::from_markdown` (`src/models.rs` 73–243). The first line is
consumed as the title; the rest drive the state machine; a final pending
comment is pushed; `created_at`/`updated_at` are the decode-time `now`
(`chrono::Utc::now()`), passed explicitly here. The only failure is an
empty document. -/
def from_markdown (now : Timestamp) (content : Str) : Except Str Ticket :=
  match rustLinesL content with
  | [] => Except.error litMissingTitle
  | title_line :: rest =>
    let title := trimStartL litTitleTag title_line
    let st := pushPending (rest.foldl step {})
    Except.ok
      { id := st.id, title := title, description := st.description,
        priority := st.priority, estimate := st.estimate, labels := st.labels,
        url := st.url, state := st.state, created_at := now, updated_at := now,
        assignee := none, comments := st.comments, parent := none,
        children := st.children, related_tickets := st.related_tickets }

/-! ### Text Encoder (`src/main.rs` 556–621, the `ticket_file_content`) -/

/-- `labels_str` (`src/main.rs` 557–562). -/
def labelsStr (t : Ticket) : Str :=
  if t.labels = [] then litNone else List.intercalate litCommaSp t.labels

/-- One `- <title> (State: <state>)` entry line. -/
def entryLine (rt : RelatedTicket) : Str :=
  litDash ++ rt.title ++ litSpParenState ++ rt.state ++ litRParen

/-- `related_tickets_str` (`src/main.rs` 564–571). -/
def relatedStr (t : Ticket) : Str :=
  if t.related_tickets = [] then litNone
  else List.intercalate ['\n'] (t.related_tickets.map entryLine)

/-- `children_str` (`src/main.rs` 573–580). -/
def childrenStr (t : Ticket) : Str :=
  if t.children = [] then litNone
  else List.intercalate ['\n'] (t.children.map entryLine)

/-- One `- <user> (<date>): <body>` comment line (`src/main.rs` 587–590);
`user` falls back to `Unknown` and the date is the `%Y-%m-%d` rendering. -/
def commentLine (c : Comment) : Str :=
  litDash ++ c.user.getD litUnknown ++ litSpParen ++ c.created_at.ymd ++ litParenColon ++ c.body

/-- `comments_str` (`src/main.rs` 583–593). -/
def commentsStr (t : Ticket) : Str :=
  if t.comments = [] then litNone
  else List.intercalate ['\n'] (t.comments.map commentLine)

/-- The estimate metadata value: `Not estimated` when absent, otherwise the
`f64` `Display` rendering (`src/main.rs` 614). -/
def estimateField (e : Option F64) : Str :=
  match e with
  | none => litNotEstimated
  | some q => f64Str q

/-- The `ticket_file_content` document (`src/main.rs` 596–621). -/
def ticketMarkdown (t : Ticket) : Str :=
  litTitleTag ++ t.title ++ '\n' :: '\n' ::
  litTicketId ++ ' ' :: t.id ++ '\n' ::
  litStateTag ++ ' ' :: t.state ++ '\n' ::
  litPriorityTag ++ ' ' :: intStr t.priority ++ '\n' ::
  litEstimateTag ++ ' ' :: estimateField t.estimate ++ '\n' ::
  litUrlTag ++ ' ' :: t.url ++ '\n' ::
  litLabelsTag ++ ' ' :: labelsStr t ++ '\n' :: '\n' ::
  litDescHeading ++ '\n' :: '\n' ::
  t.description ++ '\n' :: '\n' ::
  litCommentsHeading ++ '\n' :: '\n' ::
  commentsStr t ++ '\n' :: '\n' ::
  litRelatedHeading ++ '\n' :: '\n' ::
  relatedStr t ++ '\n' :: '\n' ::
  litChildHeading ++ '\n' :: '\n' ::
  childrenStr t ++ '\n' :: '\n' :: []

/-! ### Enrichment Fan-Out (`LinearClient::enrich_ticket`, `src/linear.rs`
211–237) -/

/-- The abstract ticket-source capability: the five sub-lookups issued by
the fan-out, each fallible with error type `ε`. -/
structure TicketSource (ε : Type) where
  fetchLabels : Str → Except ε (List Str)
  fetchComments : Str → Except ε (List Comment)
  fetchParent : Str → Except ε (Option RelatedTicket)
  fetchChildren : Str → Except ε (List RelatedTicket)
  fetchRelated : Str → Except ε (List RelatedTicket)

/-- `LinearClient::enrich_ticket` (`src/linear.rs` 211–237): clone the
input, fetch labels unless skipped, then comments, parent, children and
related tickets in order, each with `?` propagation; the `verbose` flag
only controls logging and is omitted. -/
def enrich_ticket {ε : Type} (src : TicketSource ε) (ticket : Ticket)
    (skip_labels : Bool) : Except ε Ticket := do
  let enriched := ticket
  let enriched ←
    if !skip_labels then do
      let ls ← src.fetchLabels ticket.id
      pure { enriched with labels := ls }
    else pure enriched
  let comments ← src.fetchComments ticket.id
  let parent ← src.fetchParent ticket.id
  let children ← src.fetchChildren ticket.id
  let related ← src.fetchRelated ticket.id
  pure { enriched with comments := comments, parent := parent,
                       children := children, related_tickets := related }

/-! ### Decoded shapes and benign-document predicates -/

/-- The shape a comment takes after decoding: position-based id, body kept,
`created_at` degraded to the sentinel, user kept. -/
def decodedComment (n : Nat) (c : Comment) : Comment :=
  { id := litFromFile ++ natStr n, body := c.body, created_at := sentinel2021, user := c.user }

/-- Decoded comments numbered from `k`. -/
def decodedFrom (k : Nat) (cs : List Comment) : List Comment :=
  (List.enumFrom k cs).map (fun p => decodedComment p.1 p.2)

/-- The shape an entry takes after decoding: position-based placeholder id,
title and state kept, assignee absent. -/
def decodedEntry (n : Nat) (rt : RelatedTicket) : RelatedTicket :=
  { id := litPlaceholder ++ natStr n, title := rt.title, state := rt.state, assignee := none }

/-- Decoded entries numbered from `k`. -/
def decodedEntriesFrom (k : Nat) (rts : List RelatedTicket) : List RelatedTicket :=
  (List.enumFrom k rts).map (fun p => decodedEntry p.1 p.2)

/-- The physical lines of the comments section of an encoded document. -/
def commentSection (cs : List Comment) : List Str :=
  if cs = [] then [litNone] else cs.map commentLine

/-- The physical lines of a related/children section of an encoded
document. -/
def entrySection (rts : List RelatedTicket) : List Str :=
  if rts = [] then [litNone] else rts.map entryLine

/-- Free of line endings (so the text stays on one physical line). -/
def cleanStr (l : Str) : Prop := '\n' ∉ l ∧ '\r' ∉ l

/-- The line is not captured by any of the four section-heading branches of
the decoder. -/
def noHeading (l : Str) : Prop :=
  containsL litDescHeading l = false ∧ containsL litCommentsHeading l = false ∧
  containsL litRelatedHeading l = false ∧ containsL litChildHeading l = false

/-- The line is not captured by any of the six metadata branches of the
decoder. -/
def noMetaTag (l : Str) : Prop :=
  isPrefixL litTicketId l = false ∧ isPrefixL litStateTag l = false ∧
  isPrefixL litPriorityTag l = false ∧ isPrefixL litEstimateTag l = false ∧
  isPrefixL litUrlTag l = false ∧ isPrefixL litLabelsTag l = false

/-- A comment whose encoded line the decoder parses back exactly: the user
is present, the body is a nonempty trim-stable single line, and neither the
user, the date nor the body collides with the decoder's delimiters. -/
def benignComment (c : Comment) : Prop :=
  c.user.isSome = true ∧ c.body ≠ [] ∧ trimL c.body = c.body ∧
  cleanStr (commentLine c) ∧ noHeading (commentLine c) ∧
  containsL litParen (commentLine c) = true ∧
  containsL litParenColon (commentLine c) = true ∧
  splitN2L litColonSp (commentLine c) =
    [litDash ++ c.user.getD litUnknown ++ litSpParen ++ c.created_at.ymd ++ litRParen,
     c.body] ∧
  isPrefixL litDash
    (c.user.getD litUnknown ++ litSpParen ++ c.created_at.ymd ++ litRParen) = false ∧
  splitOnL litSpParen
    (c.user.getD litUnknown ++ litSpParen ++ c.created_at.ymd ++ litRParen) =
    [c.user.getD litUnknown, c.created_at.ymd ++ litRParen]

/-- A related/child reference whose encoded entry line the decoder parses
back exactly: title and state do not collide with the entry delimiters. -/
def benignEntry (rt : RelatedTicket) : Prop :=
  cleanStr (entryLine rt) ∧ noHeading (entryLine rt) ∧
  containsL litParenState (entryLine rt) = true ∧
  isPrefixL litDash (rt.title ++ litSpParenState ++ rt.state ++ litRParen) = false ∧
  splitOnL litSpParenState (rt.title ++ litSpParenState ++ rt.state ++ litRParen) =
    [rt.title, rt.state ++ litRParen] ∧
  trimEndL litRParen (rt.state ++ litRParen) = rt.state

/-- The estimate value renders to a form the decoder parses back exactly. -/
def estimateOk : Option F64 → Prop
  | none => True
  | some q => containsL litNotEstimated (f64Str q) = false ∧ rustParseF64 (f64Str q) = some q

/-- A ticket whose encoded document the decoder walks predictably: scalar
fields are single-line, trim-stable and collision-free, and every comment
and reference is benign. -/
def benignTicket (t : Ticket) : Prop :=
  cleanStr t.title ∧ isPrefixL litTitleTag t.title = false ∧
  cleanStr t.id ∧ trimL t.id = t.id ∧
  cleanStr t.state ∧ trimL t.state = t.state ∧
  cleanStr t.url ∧ trimL t.url = t.url ∧
  cleanStr (intStr t.priority) ∧ trimL (intStr t.priority) = intStr t.priority ∧
  rustParseI32 (intStr t.priority) = some t.priority ∧
  cleanStr (estimateField t.estimate) ∧
  trimL (estimateField t.estimate) = estimateField t.estimate ∧
  estimateOk t.estimate ∧
  cleanStr (labelsStr t) ∧ trimL (labelsStr t) = labelsStr t ∧
  (t.labels ≠ [] → labelsStr t ≠ litNone ∧ splitOnL litCommaSp (labelsStr t) = t.labels) ∧
  cleanStr t.description ∧ noMetaTag t.description ∧ noHeading t.description ∧
  (∀ c ∈ t.comments, benignComment c) ∧
  (∀ rt ∈ t.related_tickets, benignEntry rt) ∧
  (∀ rt ∈ t.children, benignEntry rt)

/-- The exact image of a benign ticket under encode-then-decode: scalar
fields and labels survive; the description gains a trailing newline when
nonempty; timestamps become decode-time `now`; the assignee and parent are
lost; comment ids are renumbered and comment dates degrade to the sentinel;
and both the related and the child references land in `children` (in that
order) with placeholder ids, leaving `related_tickets` empty. -/
def decodeImage (now : Timestamp) (t : Ticket) : Ticket :=
  { id := t.id, title := t.title,
    description := if t.description = [] then [] else t.description ++ ['\n'],
    priority := t.priority, estimate := t.estimate, labels := t.labels,
    url := t.url, state := t.state, created_at := now, updated_at := now,
    assignee := none,
    comments := decodedFrom 0 t.comments,
    parent := none,
    children := decodedEntriesFrom 0 (t.related_tickets ++ t.children),
    related_tickets := [] }

/-- Join a block of lines, each terminated by a newline, in front of a
trailing rest: the associativity-friendly view of the encoder's output
used to split it back into lines. -/
def lineJoin : List Str → Str → Str
  | [], r => r
  | x :: xs, r => x ++ ('\n' :: lineJoin xs r)

instance (l : Str) : Decidable (cleanStr l) := by unfold cleanStr; infer_instance

instance (l : Str) : Decidable (noHeading l) := by unfold noHeading; infer_instance

instance (l : Str) : Decidable (noMetaTag l) := by unfold noMetaTag; infer_instance

instance (c : Comment) : Decidable (benignComment c) := by unfold benignComment; infer_instance

instance (rt : RelatedTicket) : Decidable (benignEntry rt) := by
  unfold benignEntry; infer_instance

instance (e : Option F64) : Decidable (estimateOk e) := by
  unfold estimateOk
  cases e <;> infer_instance

instance (t : Ticket) : Decidable (benignTicket t) := by unfold benignTicket; infer_instance

/-! ### Concrete example values used by witnesses and counterexamples -/

def tsW : Timestamp := { ymd := "2024-01-05".data, tod := "09:30:00Z".data }

def nowW : Timestamp := { ymd := "2025-06-06".data, tod := "12:00:00Z".data }

def annW : Str := "Ann".data

def bodyW : Str := "Looks good".data

def cW : Comment := { id := "c1".data, body := bodyW, created_at := tsW, user := some annW }

def rtRelW : RelatedTicket :=
  { id := "r1".data, title := "Rel B".data, state := "Done".data, assignee := none }

def rtChildW : RelatedTicket :=
  { id := "ch1".data, title := "Child A".data, state := "Todo".data, assignee := none }

def tW : Ticket :=
  { id := "ENG-1".data, title := "Fix bug".data, description := "Desc here".data,
    priority := 2, estimate := some 3, labels := [r"alpha".data, r"beta".data],
    url := "http://x".data, state := "Open".data, created_at := tsW, updated_at := tsW,
    assignee := some annW, comments := [cW], parent := none,
    children := [rtChildW], related_tickets := [rtRelW] }

def tEmptyW : Ticket :=
  { tW with
    labels := []
    comments := []
    children := []
    related_tickets := []
    estimate := none
    description := [] }

def tEstNoneW : Ticket := { tW with estimate := none }

def titleLineW : Str := "# Ticket: T".data

def wrapLineW : Str := "more text".data

/-- A document whose single comment body wraps onto a second physical
line. -/
def docWrapW : Str := lineJoin [titleLineW, litCommentsHeading, commentLine cW] wrapLineW

def wrappedBodyW : Str := "Looks good\nmore text".data

def errW : Str := "network down".data

def lsW : List Str := [r"alpha".data]

/-- The exact ticket the decoder produces from `docWrapW`: one comment
holding only the first physical line of the wrapped body. -/
def tWrapDecW : Ticket :=
  { id := [], title := ['T'], description := [], priority := 0, estimate := none,
    labels := [], url := [], state := [], created_at := nowW, updated_at := nowW,
    assignee := none,
    comments := [{ id := litFromFile ++ natStr 0, body := bodyW,
                   created_at := sentinel2021, user := some annW }],
    parent := none, children := [], related_tickets := [] }

/-- A ticket source whose comment lookup fails while every other lookup
succeeds. -/
def stubCommentsFailW : TicketSource Str :=
  { fetchLabels := fun _ => Except.ok lsW,
    fetchComments := fun _ => Except.error errW,
    fetchParent := fun _ => Except.ok none,
    fetchChildren := fun _ => Except.ok [rtChildW],
    fetchRelated := fun _ => Except.ok [rtRelW] }

/-- A ticket source whose five lookups all succeed. -/
def srcAllOkW : TicketSource Str :=
  { fetchLabels := fun _ => Except.ok lsW,
    fetchComments := fun _ => Except.ok [cW],
    fetchParent := fun _ => Except.ok (some rtRelW),
    fetchChildren := fun _ => Except.ok [rtChildW],
    fetchRelated := fun _ => Except.ok [rtRelW] }

instance {ε α : Type} [DecidableEq ε] [DecidableEq α] : DecidableEq (Except ε α)
  | Except.error e, Except.error f =>
    if h : e = f then Decidable.isTrue (by rw [h]) else Decidable.isFalse (by simp [h])
  | Except.error _, Except.ok _ => Decidable.isFalse (by simp)
  | Except.ok _, Except.error _ => Decidable.isFalse (by simp)
  | Except.ok a, Except.ok b =>
    if h : a = b then Decidable.isTrue (by rw [h]) else Decidable.isFalse (by simp [h])

/-! ### Lemmas about the string primitives -/

theorem isPrefixL_self_append (p r : Str) : isPrefixL p (p ++ r) = true := by
  induction p with
  | nil => simp [isPrefixL]
  | cons a as ih => simp [isPrefixL, ih]

theorem dropPre_self_append (p r : Str) : dropPre p (p ++ r) = some r := by
  induction p with
  | nil => simp [dropPre]
  | cons a as ih => simp [dropPre, ih]

theorem dropPre_eq_none {p l : Str} (h : isPrefixL p l = false) : dropPre p l = none := by
  induction p generalizing l with
  | nil => simp [isPrefixL] at h
  | cons a as ih =>
    cases l with
    | nil => simp [dropPre]
    | cons b bs =>
      simp only [isPrefixL, Bool.and_eq_false_iff] at h
      rcases h with h | h
      · simp [dropPre]
        intro hab
        simp [hab] at h
      · by_cases hab : a = b
        · simp [dropPre, hab, ih h]
        · simp [dropPre, hab]

theorem trimStartFuel_of_none {p l : Str} (h : dropPre p l = none) (f : Nat) :
    trimStartFuel p f l = l := by
  cases f with
  | zero => rfl
  | succ n => simp [trimStartFuel, h]

theorem trimStartL_of_not {p l : Str} (h : isPrefixL p l = false) : trimStartL p l = l :=
  trimStartFuel_of_none (dropPre_eq_none h) _

theorem trimStartL_append {p r : Str} (hp : p ≠ []) (h : isPrefixL p r = false) :
    trimStartL p (p ++ r) = r := by
  cases p with
  | nil => exact absurd rfl hp
  | cons a as =>
    show trimStartFuel (a :: as) ((a :: as ++ r).length) (a :: as ++ r) = r
    have hlen : (a :: as ++ r).length = (as.length + r.length) + 1 := by simp
    rw [hlen]
    simp only [trimStartFuel, dropPre_self_append, reduceCtorEq, if_false]
    exact trimStartFuel_of_none (dropPre_eq_none h) _

theorem trimL_space_cons (v : Str) : trimL (' ' :: v) = trimL v := by
  simp [trimL, List.dropWhile, isWsChar]

theorem rustLinesL_newline (r : Str) : rustLinesL ('\n' :: r) = [] :: rustLinesL r := by
  cases r with
  | nil => rfl
  | cons d ds => simp [rustLinesL]

theorem rustLinesL_cons_ne {c : Char} (rest : Str) (h1 : c ≠ '\n') (h2 : c ≠ '\r') :
    rustLinesL (c :: rest) = consHead c (rustLinesL rest) := by
  cases rest with
  | nil => simp [rustLinesL, h1, consHead]
  | cons d ds => simp [rustLinesL, h1, h2]

/-- Splitting a document at its first line: a `\n`- and `\r`-free prefix
followed by a newline is the first line. -/
theorem rustLinesL_append {x : Str} (r : Str) (h1 : '\n' ∉ x) (h2 : '\r' ∉ x) :
    rustLinesL (x ++ '\n' :: r) = x :: rustLinesL r := by
  induction x with
  | nil => simpa using rustLinesL_newline r
  | cons c cs ih =>
    have hc1 : c ≠ '\n' := fun h => h1 (h ▸ List.mem_cons_self c cs)
    have hc2 : c ≠ '\r' := fun h => h2 (h ▸ List.mem_cons_self c cs)
    have h1' : '\n' ∉ cs := fun h => h1 (List.mem_cons_of_mem c h)
    have h2' : '\r' ∉ cs := fun h => h2 (List.mem_cons_of_mem c h)
    rw [List.cons_append, rustLinesL_cons_ne _ hc1 hc2, ih h1' h2']
    rfl

/-- The lines of a `\n`-joined block followed by a final newline and more
content are the block's entries followed by the lines of the rest. -/
theorem rustLinesL_intercalate {L : List Str} (r : Str) (hL : L ≠ [])
    (h : ∀ l ∈ L, '\n' ∉ l ∧ '\r' ∉ l) :
    rustLinesL (List.intercalate ['\n'] L ++ '\n' :: r) = L ++ rustLinesL r := by
  induction L with
  | nil => exact absurd rfl hL
  | cons a L' ih =>
    cases L' with
    | nil =>
      have ha := h a (List.mem_cons_self a [])
      simp only [List.intercalate, List.intersperse_singleton, List.flatten]
      simpa using rustLinesL_append r ha.1 ha.2
    | cons b L'' =>
      have ha := h a (List.mem_cons_self a _)
      have hcc : List.intercalate ['\n'] (a :: b :: L'') =
          a ++ '\n' :: List.intercalate ['\n'] (b :: L'') := by
        simp [List.intercalate, List.intersperse_cons_cons]
      rw [hcc]
      have h' : ∀ l ∈ b :: L'', '\n' ∉ l ∧ '\r' ∉ l :=
        fun l hl => h l (List.mem_cons_of_mem a hl)
      have := ih (by simp) h'
      rw [List.append_assoc, List.cons_append, rustLinesL_append _ ha.1 ha.2, this]
      rfl

/-! ### Evaluation of `step` on each line shape of an encoded document -/

theorem step_meta_id (st : PState) (v : Str) :
    step st (litTicketId ++ ' ' :: v) = { st with id := trimL v } := by
  have h1 : isPrefixL litTicketId (' ' :: v) = false := by simp [litTicketId, isPrefixL]
  have hne : litTicketId ≠ [] := by simp [litTicketId]
  simp [step, isPrefixL_self_append, trimStartL_append hne h1, trimL_space_cons]

theorem step_meta_state (st : PState) (v : Str) :
    step st (litStateTag ++ ' ' :: v) = { st with state := trimL v } := by
  have h1 : isPrefixL litStateTag (' ' :: v) = false := by simp [litStateTag, isPrefixL]
  have hne : litStateTag ≠ [] := by simp [litStateTag]
  have h2 : isPrefixL litTicketId (litStateTag ++ ' ' :: v) = false := by
    simp [litTicketId, litStateTag, isPrefixL]
  simp [step, h2, isPrefixL_self_append, trimStartL_append hne h1, trimL_space_cons]

theorem step_meta_priority (st : PState) (v : Str) :
    step st (litPriorityTag ++ ' ' :: v) =
      { st with priority := (rustParseI32 (trimL v)).getD 0 } := by
  have h1 : isPrefixL litPriorityTag (' ' :: v) = false := by simp [litPriorityTag, isPrefixL]
  have hne : litPriorityTag ≠ [] := by simp [litPriorityTag]
  have h2 : isPrefixL litTicketId (litPriorityTag ++ ' ' :: v) = false := by
    simp [litTicketId, litPriorityTag, isPrefixL]
  have h3 : isPrefixL litStateTag (litPriorityTag ++ ' ' :: v) = false := by
    simp [litStateTag, litPriorityTag, isPrefixL]
  simp [step, h2, h3, isPrefixL_self_append, trimStartL_append hne h1, trimL_space_cons]

theorem step_meta_estimate (st : PState) (v : Str) :
    step st (litEstimateTag ++ ' ' :: v) =
      if containsL litNotEstimated (trimL v) then st
      else { st with estimate := rustParseF64 (trimL v) } := by
  have h1 : isPrefixL litEstimateTag (' ' :: v) = false := by simp [litEstimateTag, isPrefixL]
  have hne : litEstimateTag ≠ [] := by simp [litEstimateTag]
  have h2 : isPrefixL litTicketId (litEstimateTag ++ ' ' :: v) = false := by
    simp [litTicketId, litEstimateTag, isPrefixL]
  have h3 : isPrefixL litStateTag (litEstimateTag ++ ' ' :: v) = false := by
    simp [litStateTag, litEstimateTag, isPrefixL]
  have h4 : isPrefixL litPriorityTag (litEstimateTag ++ ' ' :: v) = false := by
    simp [litPriorityTag, litEstimateTag, isPrefixL]
  simp [step, h2, h3, h4, isPrefixL_self_append, trimStartL_append hne h1, trimL_space_cons]

theorem step_meta_url (st : PState) (v : Str) :
    step st (litUrlTag ++ ' ' :: v) = { st with url := trimL v } := by
  have h1 : isPrefixL litUrlTag (' ' :: v) = false := by simp [litUrlTag, isPrefixL]
  have hne : litUrlTag ≠ [] := by simp [litUrlTag]
  have h2 : isPrefixL litTicketId (litUrlTag ++ ' ' :: v) = false := by
    simp [litTicketId, litUrlTag, isPrefixL]
  have h3 : isPrefixL litStateTag (litUrlTag ++ ' ' :: v) = false := by
    simp [litStateTag, litUrlTag, isPrefixL]
  have h4 : isPrefixL litPriorityTag (litUrlTag ++ ' ' :: v) = false := by
    simp [litPriorityTag, litUrlTag, isPrefixL]
  have h5 : isPrefixL litEstimateTag (litUrlTag ++ ' ' :: v) = false := by
    simp [litEstimateTag, litUrlTag, isPrefixL]
  simp [step, h2, h3, h4, h5, isPrefixL_self_append, trimStartL_append hne h1, trimL_space_cons]

theorem step_meta_labels (st : PState) (v : Str) :
    step st (litLabelsTag ++ ' ' :: v) =
      if trimL v = litNone then st
      else { st with labels := splitOnL litCommaSp (trimL v) } := by
  have h1 : isPrefixL litLabelsTag (' ' :: v) = false := by simp [litLabelsTag, isPrefixL]
  have hne : litLabelsTag ≠ [] := by simp [litLabelsTag]
  have h2 : isPrefixL litTicketId (litLabelsTag ++ ' ' :: v) = false := by
    simp [litTicketId, litLabelsTag, isPrefixL]
  have h3 : isPrefixL litStateTag (litLabelsTag ++ ' ' :: v) = false := by
    simp [litStateTag, litLabelsTag, isPrefixL]
  have h4 : isPrefixL litPriorityTag (litLabelsTag ++ ' ' :: v) = false := by
    simp [litPriorityTag, litLabelsTag, isPrefixL]
  have h5 : isPrefixL litEstimateTag (litLabelsTag ++ ' ' :: v) = false := by
    simp [litEstimateTag, litLabelsTag, isPrefixL]
  have h6 : isPrefixL litUrlTag (litLabelsTag ++ ' ' :: v) = false := by
    simp [litUrlTag, litLabelsTag, isPrefixL]
  simp [step, h2, h3, h4, h5, h6, isPrefixL_self_append, trimStartL_append hne h1,
        trimL_space_cons]

theorem step_heading_desc (st : PState) :
    step st litDescHeading = { st with in_description_section := true } := by
  simp [step, litDescHeading, litTicketId, litStateTag, litPriorityTag, litEstimateTag,
        litUrlTag, litLabelsTag, isPrefixL, containsL]

theorem step_heading_comments (st : PState) :
    step st litCommentsHeading =
      { st with in_description_section := false, comment_section_start := true } := by
  simp [step, litCommentsHeading, litDescHeading, litTicketId, litStateTag, litPriorityTag,
        litEstimateTag, litUrlTag, litLabelsTag, isPrefixL, containsL]

theorem step_heading_related (st : PState) :
    step st litRelatedHeading = { st with comment_section_start := false } := by
  simp [step, litRelatedHeading, litCommentsHeading, litDescHeading, litTicketId, litStateTag,
        litPriorityTag, litEstimateTag, litUrlTag, litLabelsTag, isPrefixL, containsL]

theorem step_heading_child (st : PState) :
    step st litChildHeading = st := by
  simp [step, litChildHeading, litRelatedHeading, litCommentsHeading, litDescHeading,
        litTicketId, litStateTag, litPriorityTag, litEstimateTag, litUrlTag, litLabelsTag,
        isPrefixL, containsL]

theorem step_desc (st : PState) (line : Str) (hdesc : st.in_description_section = true)
    (hmeta : noMetaTag line) (hhead : noHeading line) :
    step st line =
      { st with description :=
          if st.description = [] then line else st.description ++ '\n' :: line } := by
  obtain ⟨m1, m2, m3, m4, m5, m6⟩ := hmeta
  obtain ⟨g1, g2, g3, g4⟩ := hhead
  simp [step, m1, m2, m3, m4, m5, m6, g1, g2, g3, g4, hdesc]

theorem step_desc_empty (st : PState) (line : Str) (hdesc : st.in_description_section = true)
    (hcur : st.description = []) (hmeta : noMetaTag line) (hhead : noHeading line) :
    step st line = { st with description := line } := by
  rw [step_desc st line hdesc hmeta hhead, if_pos hcur]

theorem step_skip (st : PState) (line : Str) (hdesc : st.in_description_section = false)
    (hmeta : noMetaTag line) (hhead : noHeading line)
    (hcmt : (st.comment_section_start && isPrefixL litDash line && containsL litParen line
      && containsL litParenColon line) = false)
    (hentry : (isPrefixL litDash line && containsL litParenState line) = false) :
    step st line = st := by
  obtain ⟨m1, m2, m3, m4, m5, m6⟩ := hmeta
  obtain ⟨g1, g2, g3, g4⟩ := hhead
  simp [step, m1, m2, m3, m4, m5, m6, g1, g2, g3, g4, hdesc, hcmt, hentry]

theorem step_blank (st : PState) (hdesc : st.in_description_section = false) :
    step st [] = st := by
  refine step_skip st [] hdesc (by decide) (by decide) ?_ ?_
  · have h : isPrefixL litDash [] = false := by decide
    simp [h]
  · decide

theorem step_none (st : PState) (hdesc : st.in_description_section = false) :
    step st litNone = st := by
  refine step_skip st litNone hdesc (by decide) (by decide) ?_ ?_
  · have h : isPrefixL litDash litNone = false := by decide
    simp [h]
  · decide

theorem step_comment (st : PState) (c : Comment)
    (hflag : st.comment_section_start = true) (hdesc : st.in_description_section = false)
    (hb : benignComment c) :
    step st (commentLine c) =
      { pushPending st with
        comment_user := c.user,
        comment_date := some (trimEndL litRParen (c.created_at.ymd ++ litRParen)),
        current_comment := c.body } := by
  obtain ⟨hu, hbody, htrim, hclean, hhead, hp1, hp2, hsplit, hpre, hsplit2⟩ := hb
  obtain ⟨g1, g2, g3, g4⟩ := hhead
  obtain ⟨x, hx⟩ := Option.isSome_iff_exists.mp hu
  have hgetd : c.user.getD litUnknown = x := by rw [hx]; rfl
  have hdne : litDash ≠ [] := by decide
  have hmeta : noMetaTag (commentLine c) := by
    simp only [commentLine, litDash]
    refine ⟨?_, ?_, ?_, ?_, ?_, ?_⟩ <;>
      simp [litTicketId, litStateTag, litPriorityTag, litEstimateTag, litUrlTag,
            litLabelsTag, isPrefixL]
  obtain ⟨m1, m2, m3, m4, m5, m6⟩ := hmeta
  have hdashline : isPrefixL litDash (commentLine c) = true := by
    simp only [commentLine]
    exact isPrefixL_self_append litDash _
  rw [hgetd] at hsplit hpre hsplit2
  have hheader : trimStartL litDash
      (litDash ++ (x ++ (litSpParen ++ (c.created_at.ymd ++ litRParen))))
      = x ++ (litSpParen ++ (c.created_at.ymd ++ litRParen)) := by
    rw [trimStartL_append hdne]
    simpa [List.append_assoc] using hpre
  simp only [step, m1, m2, m3, m4, m5, m6, g1, g2, g3, g4, hdesc, Bool.false_eq_true,
    if_false, hflag, hdashline, hp1, hp2, Bool.and_self, Bool.true_and, if_true, hsplit]
  have hassoc : litDash ++ x ++ litSpParen ++ c.created_at.ymd ++ litRParen
      = litDash ++ (x ++ (litSpParen ++ (c.created_at.ymd ++ litRParen))) := by
    simp [List.append_assoc]
  simp only [List.append_assoc] at hsplit2
  simp only [hassoc, hheader, hsplit2, hx]

theorem step_entry (st : PState) (rt : RelatedTicket)
    (hflag : st.comment_section_start = false) (hdesc : st.in_description_section = false)
    (hb : benignEntry rt) :
    step st (entryLine rt) =
      { st with children := st.children ++ [decodedEntry st.children.length rt] } := by
  obtain ⟨hclean, hhead, hps, hpre, hsplit, htrimend⟩ := hb
  obtain ⟨g1, g2, g3, g4⟩ := hhead
  have hdne : litDash ≠ [] := by decide
  have hmeta : noMetaTag (entryLine rt) := by
    simp only [entryLine, litDash]
    refine ⟨?_, ?_, ?_, ?_, ?_, ?_⟩ <;>
      simp [litTicketId, litStateTag, litPriorityTag, litEstimateTag, litUrlTag,
            litLabelsTag, isPrefixL]
  obtain ⟨m1, m2, m3, m4, m5, m6⟩ := hmeta
  have hdashline : isPrefixL litDash (entryLine rt) = true := by
    simp only [entryLine]
    exact isPrefixL_self_append litDash _
  have hheader : trimStartL litDash
      (litDash ++ (rt.title ++ (litSpParenState ++ (rt.state ++ litRParen))))
      = rt.title ++ (litSpParenState ++ (rt.state ++ litRParen)) := by
    rw [trimStartL_append hdne]
    simpa [List.append_assoc] using hpre
  simp only [List.append_assoc] at hsplit
  simp only [step, m1, m2, m3, m4, m5, m6, g1, g2, g3, g4, hdesc, hflag,
    Bool.false_eq_true, Bool.false_and, if_false, hdashline, hps, Bool.and_self,
    Bool.true_and, if_true]
  have hline : entryLine rt
      = litDash ++ (rt.title ++ (litSpParenState ++ (rt.state ++ litRParen))) := by
    simp [entryLine, List.append_assoc]
  rw [hline, hheader, hsplit]
  simp only [htrimend, decodedEntry, g3, Bool.false_eq_true, if_false, hline]


theorem decodedEntriesFrom_cons (k : Nat) (rt : RelatedTicket) (rts : List RelatedTicket) :
    decodedEntriesFrom k (rt :: rts) = decodedEntry k rt :: decodedEntriesFrom (k + 1) rts := by
  simp [decodedEntriesFrom, List.enumFrom_cons]

theorem decodedFrom_cons (k : Nat) (c : Comment) (cs : List Comment) :
    decodedFrom k (c :: cs) = decodedComment k c :: decodedFrom (k + 1) cs := by
  simp [decodedFrom, List.enumFrom_cons]

theorem fold_entries (rts : List RelatedTicket) (st : PState)
    (hflag : st.comment_section_start = false) (hdesc : st.in_description_section = false)
    (hb : ∀ rt ∈ rts, benignEntry rt) :
    List.foldl step st (rts.map entryLine) =
      { st with children := st.children ++ decodedEntriesFrom st.children.length rts } := by
  induction rts generalizing st with
  | nil => simp [decodedEntriesFrom, List.enumFrom]
  | cons rt rts' ih =>
    have hbrt := hb rt (List.mem_cons_self _ _)
    have hb' : ∀ r ∈ rts', benignEntry r := fun r hr => hb r (List.mem_cons_of_mem _ hr)
    rw [List.map_cons, List.foldl_cons, step_entry st rt hflag hdesc hbrt,
        ih _ (by simpa using hflag) (by simpa using hdesc) hb']
    simp [decodedEntriesFrom_cons, List.append_assoc]

theorem fold_entry_section (rts : List RelatedTicket) (st : PState)
    (hflag : st.comment_section_start = false) (hdesc : st.in_description_section = false)
    (hb : ∀ rt ∈ rts, benignEntry rt) :
    List.foldl step st (entrySection rts) =
      { st with children := st.children ++ decodedEntriesFrom st.children.length rts } := by
  cases rts with
  | nil =>
    simp [entrySection, step_none st hdesc, decodedEntriesFrom, List.enumFrom]
  | cons rt rts' =>
    rw [entrySection, if_neg (by simp)]
    exact fold_entries _ st hflag hdesc hb

theorem pushPending_of_pending {d : Str} (st : PState) (p : Comment)
    (hcur : st.current_comment = p.body) (huser : st.comment_user = p.user)
    (hdate : st.comment_date = some d)
    (hbp : benignComment p) :
    pushPending st =
      { st with
        comments := st.comments ++ [decodedComment st.comments.length p],
        current_comment := [] } := by
  have h1 : st.current_comment ≠ [] := by rw [hcur]; exact hbp.2.1
  have h2 : st.comment_user.isSome = true := by rw [huser]; exact hbp.1
  have h3 : st.comment_date.isSome = true := by rw [hdate]; rfl
  rw [pushPending, if_pos ⟨h1, h2, h3⟩]
  simp only [decodedComment, hcur, huser, hbp.2.2.1]
  have hca : commentCreatedAt (st.comment_date.getD []) = sentinel2021 := rfl
  rw [hca]

theorem fold_comments_pending (cs : List Comment) (st : PState) (p : Comment)
    (hflag : st.comment_section_start = true) (hdesc : st.in_description_section = false)
    (hcur : st.current_comment = p.body) (huser : st.comment_user = p.user)
    (hdate : st.comment_date = some (trimEndL litRParen (p.created_at.ymd ++ litRParen)))
    (hbp : benignComment p) (hb : ∀ c ∈ cs, benignComment c) :
    List.foldl step st (cs.map commentLine) =
      { st with
        comments := st.comments ++ decodedFrom st.comments.length ((p :: cs).dropLast),
        current_comment := (cs.getLastD p).body,
        comment_user := (cs.getLastD p).user,
        comment_date :=
          some (trimEndL litRParen ((cs.getLastD p).created_at.ymd ++ litRParen)) } := by
  induction cs generalizing st p with
  | nil =>
    simp only [List.map_nil, List.foldl_nil, List.dropLast_single, decodedFrom,
      List.enumFrom, List.map_nil, List.append_nil, List.getLastD]
    rw [← hcur, ← huser, ← hdate]
  | cons c cs' ih =>
    have hbc := hb c (List.mem_cons_self _ _)
    have hb' : ∀ x ∈ cs', benignComment x := fun x hx => hb x (List.mem_cons_of_mem _ hx)
    rw [List.map_cons, List.foldl_cons, step_comment st c hflag hdesc hbc,
        pushPending_of_pending st p hcur huser hdate hbp]
    rw [ih _ c (by simpa using hflag) (by simpa using hdesc) rfl rfl rfl hbc hb']
    simp only [List.getLastD_cons, List.dropLast_cons₂, decodedFrom_cons]
    simp [List.append_assoc, List.length_append, decodedFrom]

theorem pushPending_empty (st : PState) (hcur : st.current_comment = []) :
    pushPending st = st := by
  simp [pushPending, hcur]

theorem decodedFrom_dropLast (k : Nat) (c : Comment) (cs' : List Comment) :
    decodedFrom k ((c :: cs').dropLast)
      ++ [decodedComment (k + (c :: cs').dropLast.length) (cs'.getLastD c)]
      = decodedFrom k (c :: cs') := by
  induction cs' generalizing k c with
  | nil =>
    simp [decodedFrom, List.enumFrom, List.getLastD]
  | cons d ds ih =>
    rw [List.dropLast_cons₂, List.getLastD_cons, decodedFrom_cons, decodedFrom_cons]
    rw [← ih (k + 1) d]
    simp [List.length_cons, Nat.add_comm, Nat.add_assoc, Nat.add_left_comm]

theorem lines_comments (t : Ticket) (r : Str) (hb : ∀ c ∈ t.comments, benignComment c) :
    rustLinesL (commentsStr t ++ '\n' :: r) = commentSection t.comments ++ rustLinesL r := by
  cases htc : t.comments with
  | nil =>
    rw [commentsStr, if_pos htc, commentSection, if_pos rfl]
    exact rustLinesL_append r (by decide) (by decide)
  | cons c cs' =>
    rw [commentsStr, if_neg (by rw [htc]; simp), commentSection, if_neg (by simp), htc]
    refine rustLinesL_intercalate r (by simp) ?_
    intro l hl
    simp only [List.mem_map] at hl
    obtain ⟨c', hc', rfl⟩ := hl
    have := hb c' (htc ▸ hc')
    exact this.2.2.2.1

theorem lines_related (t : Ticket) (r : Str) (hb : ∀ rt ∈ t.related_tickets, benignEntry rt) :
    rustLinesL (relatedStr t ++ '\n' :: r) = entrySection t.related_tickets ++ rustLinesL r := by
  cases htc : t.related_tickets with
  | nil =>
    rw [relatedStr, if_pos htc, entrySection, if_pos rfl]
    exact rustLinesL_append r (by decide) (by decide)
  | cons rt rts' =>
    rw [relatedStr, if_neg (by rw [htc]; simp), entrySection, if_neg (by simp), htc]
    refine rustLinesL_intercalate r (by simp) ?_
    intro l hl
    simp only [List.mem_map] at hl
    obtain ⟨rt', hrt', rfl⟩ := hl
    have := hb rt' (htc ▸ hrt')
    exact this.1

theorem lines_children (t : Ticket) (r : Str) (hb : ∀ rt ∈ t.children, benignEntry rt) :
    rustLinesL (childrenStr t ++ '\n' :: r) = entrySection t.children ++ rustLinesL r := by
  cases htc : t.children with
  | nil =>
    rw [childrenStr, if_pos htc, entrySection, if_pos rfl]
    exact rustLinesL_append r (by decide) (by decide)
  | cons rt rts' =>
    rw [childrenStr, if_neg (by rw [htc]; simp), entrySection, if_neg (by simp), htc]
    refine rustLinesL_intercalate r (by simp) ?_
    intro l hl
    simp only [List.mem_map] at hl
    obtain ⟨rt', hrt', rfl⟩ := hl
    have := hb rt' (htc ▸ hrt')
    exact this.1

theorem not_mem_append2 {ch : Char} {a b : Str} (h1 : ch ∉ a) (h2 : ch ∉ b) :
    ch ∉ a ++ b := fun h => (List.mem_append.mp h).elim h1 h2

theorem not_mem_tag_line {ch : Char} {tag v : Str} (h1 : ch ∉ tag) (h2 : ch ≠ ' ')
    (h3 : ch ∉ v) : ch ∉ tag ++ ' ' :: v := by
  intro h
  rcases List.mem_append.mp h with h | h
  · exact h1 h
  · rcases List.mem_cons.mp h with h | h
    · exact h2 h
    · exact h3 h

theorem rustLinesL_lineJoin (xs : List Str) (r : Str)
    (h : ∀ x ∈ xs, '\n' ∉ x ∧ '\r' ∉ x) :
    rustLinesL (lineJoin xs r) = xs ++ rustLinesL r := by
  induction xs with
  | nil => rfl
  | cons x xs' ih =>
    have hx := h x (List.mem_cons_self _ _)
    have h' : ∀ y ∈ xs', '\n' ∉ y ∧ '\r' ∉ y := fun y hy => h y (List.mem_cons_of_mem _ hy)
    rw [lineJoin, rustLinesL_append _ hx.1 hx.2, ih h']
    rfl


theorem ticketMarkdown_lines (t : Ticket) (hb : benignTicket t) :
    rustLinesL (ticketMarkdown t) =
      (litTitleTag ++ t.title) :: [] ::
      (litTicketId ++ ' ' :: t.id) ::
      (litStateTag ++ ' ' :: t.state) ::
      (litPriorityTag ++ ' ' :: intStr t.priority) ::
      (litEstimateTag ++ ' ' :: estimateField t.estimate) ::
      (litUrlTag ++ ' ' :: t.url) ::
      (litLabelsTag ++ ' ' :: labelsStr t) :: [] ::
      litDescHeading :: [] ::
      t.description :: [] ::
      litCommentsHeading :: [] ::
      (commentSection t.comments ++ [] ::
        litRelatedHeading :: [] ::
        (entrySection t.related_tickets ++ [] ::
          litChildHeading :: [] ::
          (entrySection t.children ++ [[]]))) := by
  obtain ⟨ht1, ht2, hid1, hid2, hst1, hst2, hurl1, hurl2, hpr1, hpr2, hpr3,
    hes1, hes2, hes3, hlb1, hlb2, hlb3, hd1, hd2, hd3, hcs, hrs, hchs⟩ := hb
  have hg : ticketMarkdown t =
      lineJoin [litTitleTag ++ t.title, [], litTicketId ++ ' ' :: t.id,
        litStateTag ++ ' ' :: t.state, litPriorityTag ++ ' ' :: intStr t.priority,
        litEstimateTag ++ ' ' :: estimateField t.estimate, litUrlTag ++ ' ' :: t.url,
        litLabelsTag ++ ' ' :: labelsStr t, [], litDescHeading, [], t.description, [],
        litCommentsHeading, []]
      (commentsStr t ++ ('\n' ::
        lineJoin [[], litRelatedHeading, []]
          (relatedStr t ++ ('\n' ::
            lineJoin [[], litChildHeading, []]
              (childrenStr t ++ ('\n' :: lineJoin [[]] [])))))) := by
    simp [ticketMarkdown, lineJoin, List.append_assoc]
  rw [hg]
  rw [rustLinesL_lineJoin _ _ ?hall]
  case hall =>
    simp only [List.forall_mem_cons]
    refine ⟨⟨not_mem_append2 (by decide) ht1.1, not_mem_append2 (by decide) ht1.2⟩,
      ⟨by decide, by decide⟩,
      ⟨not_mem_tag_line (by decide) (by decide) hid1.1,
       not_mem_tag_line (by decide) (by decide) hid1.2⟩,
      ⟨not_mem_tag_line (by decide) (by decide) hst1.1,
       not_mem_tag_line (by decide) (by decide) hst1.2⟩,
      ⟨not_mem_tag_line (by decide) (by decide) hpr1.1,
       not_mem_tag_line (by decide) (by decide) hpr1.2⟩,
      ⟨not_mem_tag_line (by decide) (by decide) hes1.1,
       not_mem_tag_line (by decide) (by decide) hes1.2⟩,
      ⟨not_mem_tag_line (by decide) (by decide) hurl1.1,
       not_mem_tag_line (by decide) (by decide) hurl1.2⟩,
      ⟨not_mem_tag_line (by decide) (by decide) hlb1.1,
       not_mem_tag_line (by decide) (by decide) hlb1.2⟩,
      ⟨by decide, by decide⟩, ⟨by decide, by decide⟩, ⟨by decide, by decide⟩,
      ⟨hd1.1, hd1.2⟩, ⟨by decide, by decide⟩, ⟨by decide, by decide⟩,
      ⟨by decide, by decide⟩, by simp⟩
  rw [lines_comments t _ hcs]
  rw [rustLinesL_lineJoin _ _ (by
    simp only [List.forall_mem_cons]
    exact ⟨⟨by decide, by decide⟩, ⟨by decide, by decide⟩, ⟨by decide, by decide⟩, by simp⟩)]
  rw [lines_related t _ hrs]
  rw [rustLinesL_lineJoin _ _ (by
    simp only [List.forall_mem_cons]
    exact ⟨⟨by decide, by decide⟩, ⟨by decide, by decide⟩, ⟨by decide, by decide⟩, by simp⟩)]
  rw [lines_children t _ hchs]
  rw [rustLinesL_lineJoin _ _ (by
    simp only [List.forall_mem_cons]
    exact ⟨⟨by decide, by decide⟩, by simp⟩)]
  rfl


theorem step_meta_estimate_benign (st : PState) (e : Option F64)
    (hok : estimateOk e) (htr : trimL (estimateField e) = estimateField e)
    (hst : st.estimate = none) :
    step st (litEstimateTag ++ ' ' :: estimateField e) = { st with estimate := e } := by
  rw [step_meta_estimate, htr]
  cases e with
  | none =>
    rw [if_pos (by decide)]
    have h : ({ st with estimate := none } : PState) = st := by rw [← hst]
    exact h.symm
  | some q =>
    obtain ⟨h1, h2⟩ := hok
    rw [if_neg (by simp [estimateField, h1]), estimateField, h2]

theorem step_meta_labels_benign (st : PState) (t : Ticket)
    (htr : trimL (labelsStr t) = labelsStr t)
    (hne : t.labels ≠ [] → labelsStr t ≠ litNone ∧ splitOnL litCommaSp (labelsStr t) = t.labels)
    (hst : st.labels = []) :
    step st (litLabelsTag ++ ' ' :: labelsStr t) = { st with labels := t.labels } := by
  rw [step_meta_labels, htr]
  cases hl : t.labels with
  | nil =>
    rw [if_pos (by simp [labelsStr, hl])]
    have h : ({ st with labels := [] } : PState) = st := by rw [← hst]
    exact h.symm
  | cons a as =>
    obtain ⟨h1, h2⟩ := hne (by rw [hl]; simp)
    rw [if_neg h1, h2, hl]


theorem decodedFrom_length (k : Nat) (cs : List Comment) :
    (decodedFrom k cs).length = cs.length := by
  simp [decodedFrom, List.enumFrom_length]

theorem decodedEntriesFrom_length (k : Nat) (rts : List RelatedTicket) :
    (decodedEntriesFrom k rts).length = rts.length := by
  simp [decodedEntriesFrom, List.enumFrom_length]

theorem decodedEntriesFrom_append (k : Nat) (xs ys : List RelatedTicket) :
    decodedEntriesFrom k (xs ++ ys) =
      decodedEntriesFrom k xs ++ decodedEntriesFrom (k + xs.length) ys := by
  simp [decodedEntriesFrom, List.enumFrom_append]

theorem fold_comment_section_nil (st : PState) (hdesc : st.in_description_section = false) :
    List.foldl step st (commentSection []) = st := by
  rw [show commentSection [] = [litNone] from rfl, List.foldl_cons, step_none _ hdesc,
    List.foldl_nil]

theorem fold_comment_section_cons (c : Comment) (cs' : List Comment) (st : PState)
    (hflag : st.comment_section_start = true) (hdesc : st.in_description_section = false)
    (hcur : st.current_comment = []) (hb : ∀ x ∈ c :: cs', benignComment x) :
    List.foldl step st (commentSection (c :: cs')) =
      { st with
        comments := st.comments ++ decodedFrom st.comments.length ((c :: cs').dropLast),
        current_comment := (cs'.getLastD c).body,
        comment_user := (cs'.getLastD c).user,
        comment_date :=
          some (trimEndL litRParen ((cs'.getLastD c).created_at.ymd ++ litRParen)) } := by
  have hbc := hb c (List.mem_cons_self _ _)
  have hb' : ∀ x ∈ cs', benignComment x := fun x hx => hb x (List.mem_cons_of_mem _ hx)
  rw [show commentSection (c :: cs') = commentLine c :: cs'.map commentLine from by
    rw [commentSection, if_neg (by simp)]; rfl]
  rw [List.foldl_cons, step_comment _ c hflag hdesc hbc, pushPending_empty _ hcur]
  rw [fold_comments_pending cs' _ c (by simpa using hflag) (by simpa using hdesc)
    rfl rfl rfl hbc hb']


set_option maxHeartbeats 4000000 in
/-- Decoding the encoder's output of a benign ticket gives the exact image. -/
theorem decode_encode (now : Timestamp) (t : Ticket) (hb : benignTicket t) :
    from_markdown now (ticketMarkdown t) = Except.ok (decodeImage now t) := by
  have hlines := ticketMarkdown_lines t hb
  obtain ⟨ht1, ht2, hid1, hid2, hst1, hst2, hurl1, hurl2, hpr1, hpr2, hpr3,
    hes1, hes2, hes3, hlb1, hlb2, hlb3, hd1, hd2, hd3, hcs, hrs, hchs⟩ := hb
  rw [from_markdown, hlines]
  dsimp only
  rw [trimStartL_append (by decide) ht2]
  rw [List.foldl_cons, step_blank _ rfl]
  rw [List.foldl_cons, step_meta_id, hid2]
  dsimp only
  rw [List.foldl_cons, step_meta_state, hst2]
  dsimp only
  rw [List.foldl_cons, step_meta_priority, hpr2, hpr3]
  dsimp only [Option.getD_some]
  rw [List.foldl_cons, step_meta_estimate_benign _ _ hes3 hes2 rfl]
  dsimp only
  rw [List.foldl_cons, step_meta_url, hurl2]
  dsimp only
  rw [List.foldl_cons, step_meta_labels_benign _ _ hlb2 hlb3 rfl]
  dsimp only
  rw [List.foldl_cons, step_blank _ rfl]
  rw [List.foldl_cons, step_heading_desc]
  dsimp only
  rw [List.foldl_cons, step_desc_empty _ _ rfl rfl (by decide) (by decide)]
  dsimp only
  rw [List.foldl_cons, step_desc_empty _ _ rfl rfl hd2 hd3]
  dsimp only
  rw [List.foldl_cons, step_desc _ _ rfl (by decide) (by decide)]
  dsimp only
  rw [List.foldl_cons, step_heading_comments]
  dsimp only
  rw [List.foldl_cons, step_blank _ rfl]
  rw [List.foldl_append]
  cases htc : t.comments with
  | nil =>
    rw [fold_comment_section_nil _ rfl]
    rw [List.foldl_cons, step_blank _ rfl]
    rw [List.foldl_cons, step_heading_related]
    dsimp only
    rw [List.foldl_cons, step_blank _ rfl]
    rw [List.foldl_append, fold_entry_section _ _ rfl rfl hrs]
    dsimp only
    rw [List.foldl_cons, step_blank _ rfl]
    rw [List.foldl_cons, step_heading_child]
    rw [List.foldl_cons, step_blank _ rfl]
    rw [List.foldl_append, fold_entry_section _ _ rfl rfl hchs]
    dsimp only
    rw [List.foldl_cons, step_blank _ rfl, List.foldl_nil]
    rw [pushPending_empty _ rfl]
    dsimp only
    simp only [List.nil_append, decodedEntriesFrom_length, List.length_nil,
      decodedEntriesFrom_append, Nat.zero_add, decodeImage, htc]
    simp [decodedFrom, List.enumFrom]
  | cons c cs' =>
    have hbcc : ∀ x ∈ c :: cs', benignComment x := htc ▸ hcs
    rw [fold_comment_section_cons c cs' _ rfl rfl rfl hbcc]
    dsimp only
    rw [List.foldl_cons, step_blank _ rfl]
    rw [List.foldl_cons, step_heading_related]
    dsimp only
    rw [List.foldl_cons, step_blank _ rfl]
    rw [List.foldl_append, fold_entry_section _ _ rfl rfl hrs]
    dsimp only
    rw [List.foldl_cons, step_blank _ rfl]
    rw [List.foldl_cons, step_heading_child]
    rw [List.foldl_cons, step_blank _ rfl]
    rw [List.foldl_append, fold_entry_section _ _ rfl rfl hchs]
    dsimp only
    rw [List.foldl_cons, step_blank _ rfl, List.foldl_nil]
    rw [pushPending_of_pending _ (cs'.getLastD c) rfl rfl rfl
      (hbcc _ (List.getLastD_mem_cons _ _))]
    dsimp only
    have hdl := decodedFrom_dropLast 0 c cs'
    simp only [Nat.zero_add] at hdl
    simp only [List.nil_append, List.length_nil, decodedFrom_length, decodedEntriesFrom_length,
      Nat.zero_add, hdl, decodedEntriesFrom_append, decodeImage, htc]


theorem pushPending_related (st : PState) :
    (pushPending st).related_tickets = st.related_tickets := by
  rw [pushPending]; split <;> rfl

/-- One decoder step never touches `related_tickets` (the related-push
branch is unreachable: it requires the line to contain the related-tickets
heading, which an earlier branch has already consumed), and it only ever
extends `comments` through `pushPending`. -/
theorem step_preserves (st : PState) (line : Str) :
    (step st line).related_tickets = st.related_tickets ∧
    ((step st line).comments = st.comments ∨
      (step st line).comments = (pushPending st).comments) := by
  unfold step
  by_cases h1 : isPrefixL litTicketId line = true
  · rw [if_pos h1]; exact ⟨rfl, Or.inl rfl⟩
  rw [if_neg h1]
  by_cases h2 : isPrefixL litStateTag line = true
  · rw [if_pos h2]; exact ⟨rfl, Or.inl rfl⟩
  rw [if_neg h2]
  by_cases h3 : isPrefixL litPriorityTag line = true
  · rw [if_pos h3]; exact ⟨rfl, Or.inl rfl⟩
  rw [if_neg h3]
  by_cases h4 : isPrefixL litEstimateTag line = true
  · rw [if_pos h4]
    by_cases h4b : containsL litNotEstimated (trimL (trimStartL litEstimateTag line)) = true
    · rw [if_pos h4b]; exact ⟨rfl, Or.inl rfl⟩
    · rw [if_neg h4b]; exact ⟨rfl, Or.inl rfl⟩
  rw [if_neg h4]
  by_cases h5 : isPrefixL litUrlTag line = true
  · rw [if_pos h5]; exact ⟨rfl, Or.inl rfl⟩
  rw [if_neg h5]
  by_cases h6 : isPrefixL litLabelsTag line = true
  · rw [if_pos h6]
    by_cases h6b : trimL (trimStartL litLabelsTag line) = litNone
    · rw [if_pos h6b]; exact ⟨rfl, Or.inl rfl⟩
    · rw [if_neg h6b]; exact ⟨rfl, Or.inl rfl⟩
  rw [if_neg h6]
  by_cases h7 : containsL litDescHeading line = true
  · rw [if_pos h7]; exact ⟨rfl, Or.inl rfl⟩
  rw [if_neg h7]
  by_cases h8 : containsL litCommentsHeading line = true
  · rw [if_pos h8]; exact ⟨rfl, Or.inl rfl⟩
  rw [if_neg h8]
  by_cases h9 : containsL litRelatedHeading line = true
  · rw [if_pos h9]; exact ⟨rfl, Or.inl rfl⟩
  rw [if_neg h9]
  by_cases h10 : containsL litChildHeading line = true
  · rw [if_pos h10]; exact ⟨rfl, Or.inl rfl⟩
  rw [if_neg h10]
  by_cases h11 : st.in_description_section = true
  · rw [if_pos h11]; exact ⟨rfl, Or.inl rfl⟩
  rw [if_neg h11]
  by_cases h12 : (st.comment_section_start && isPrefixL litDash line && containsL litParen line
      && containsL litParenColon line) = true
  · rw [if_pos h12]
    rcases hsp : splitN2L litColonSp line with _ | ⟨a, _ | ⟨b, _ | ⟨c', rest⟩⟩⟩ <;>
      dsimp only
    · exact ⟨pushPending_related st, Or.inr rfl⟩
    · exact ⟨pushPending_related st, Or.inr rfl⟩
    · rcases hsp2 : splitOnL litSpParen (trimStartL litDash a)
          with _ | ⟨u, _ | ⟨d, _ | ⟨u', rest'⟩⟩⟩ <;>
        dsimp only <;>
        exact ⟨pushPending_related st, Or.inr rfl⟩
    · exact ⟨pushPending_related st, Or.inr rfl⟩
  rw [if_neg h12]
  by_cases h13 : (isPrefixL litDash line && containsL litParenState line) = true
  · rw [if_pos h13]
    rcases hsp : splitOnL litSpParenState (trimStartL litDash line)
        with _ | ⟨ti, _ | ⟨stt, _ | ⟨x', rest'⟩⟩⟩ <;>
      dsimp only
    · exact ⟨rfl, Or.inl rfl⟩
    · exact ⟨rfl, Or.inl rfl⟩
    · rw [if_neg h9]
      exact ⟨rfl, Or.inl rfl⟩
    · exact ⟨rfl, Or.inl rfl⟩
  rw [if_neg h13]
  exact ⟨rfl, Or.inl rfl⟩


theorem pushPending_comments_sentinel (st : PState)
    (h : ∀ c ∈ st.comments, c.created_at = sentinel2021) :
    ∀ c ∈ (pushPending st).comments, c.created_at = sentinel2021 := by
  rw [pushPending]
  split
  · intro c hc
    rcases List.mem_append.mp hc with hc | hc
    · exact h c hc
    · rcases List.mem_singleton.mp hc with rfl
      rfl
  · exact h

theorem foldl_related (lines : List Str) (st : PState) :
    (List.foldl step st lines).related_tickets = st.related_tickets := by
  induction lines generalizing st with
  | nil => rfl
  | cons l ls ih => rw [List.foldl_cons, ih, (step_preserves st l).1]

theorem foldl_comments_sentinel (lines : List Str) (st : PState)
    (h : ∀ c ∈ st.comments, c.created_at = sentinel2021) :
    ∀ c ∈ (List.foldl step st lines).comments, c.created_at = sentinel2021 := by
  induction lines generalizing st with
  | nil => exact h
  | cons l ls ih =>
    rw [List.foldl_cons]
    refine ih _ ?_
    rcases (step_preserves st l).2 with he | he
    · rw [he]; exact h
    · rw [he]; exact pushPending_comments_sentinel st h

theorem rustLinesL_single {x : Str} (hne : x ≠ []) (h1 : '\n' ∉ x) (h2 : '\r' ∉ x) :
    rustLinesL x = [x] := by
  induction x with
  | nil => exact absurd rfl hne
  | cons c cs ih =>
    have hc1 : c ≠ '\n' := fun h => h1 (h ▸ List.mem_cons_self c cs)
    have hc2 : c ≠ '\r' := fun h => h2 (h ▸ List.mem_cons_self c cs)
    have h1' : '\n' ∉ cs := fun h => h1 (List.mem_cons_of_mem c h)
    have h2' : '\r' ∉ cs := fun h => h2 (List.mem_cons_of_mem c h)
    rw [rustLinesL_cons_ne _ hc1 hc2]
    cases cs with
    | nil => rfl
    | cons d ds =>
      rw [ih (by simp) h1' h2']
      rfl


/-- C3: if any of the five sub-lookups (labels when not skipped, comments,
parent, children, related) returns an error, the enrichment returns an
error and no Ticket value is produced. -/
theorem c3_fanout_all_or_nothing {ε : Type} (src : TicketSource ε) (t : Ticket)
    (skip_labels : Bool)
    (h : (skip_labels = false ∧ ∃ e, src.fetchLabels t.id = Except.error e) ∨
         (∃ e, src.fetchComments t.id = Except.error e) ∨
         (∃ e, src.fetchParent t.id = Except.error e) ∨
         (∃ e, src.fetchChildren t.id = Except.error e) ∨
         (∃ e, src.fetchRelated t.id = Except.error e)) :
    ∃ e, enrich_ticket src t skip_labels = Except.error e := by
  unfold enrich_ticket
  rcases hL : src.fetchLabels t.id with eL | vL <;>
    rcases hC : src.fetchComments t.id with eC | vC <;>
      rcases hP : src.fetchParent t.id with eP | vP <;>
        rcases hCh : src.fetchChildren t.id with eCh | vCh <;>
          rcases hR : src.fetchRelated t.id with eR | vR <;>
            cases skip_labels <;>
              simp_all [Bind.bind, Except.bind, Pure.pure, Except.pure]

theorem c3_fanout_all_or_nothing_witness :
    (∃ v, stubCommentsFailW.fetchLabels tW.id = Except.ok v) ∧
    (∃ v, stubCommentsFailW.fetchParent tW.id = Except.ok v) ∧
    (∃ v, stubCommentsFailW.fetchChildren tW.id = Except.ok v) ∧
    (∃ v, stubCommentsFailW.fetchRelated tW.id = Except.ok v) ∧
    (∃ e, stubCommentsFailW.fetchComments tW.id = Except.error e) ∧
    (∃ e, enrich_ticket stubCommentsFailW tW false = Except.error e) :=
  ⟨⟨lsW, rfl⟩, ⟨none, rfl⟩, ⟨[rtChildW], rfl⟩, ⟨[rtRelW], rfl⟩, ⟨errW, rfl⟩,
    c3_fanout_all_or_nothing stubCommentsFailW tW false (Or.inr (Or.inl ⟨errW, rfl⟩))⟩

/-- C6: when all five sub-lookups succeed, `enrich_ticket` returns a fresh
Ticket equal to the input on every non-relational field (id, title,
description, priority, estimate, url, state, created_at, updated_at,
assignee), with only the five relational fields replaced by the lookup
results; when `skip_labels` is set the labels keep the input's value. -/
theorem c6_enrich_frame {ε : Type} (src : TicketSource ε) (t : Ticket) (skip_labels : Bool)
    (ls : List Str) (cs : List Comment) (p : Option RelatedTicket)
    (ch rel : List RelatedTicket)
    (hL : src.fetchLabels t.id = Except.ok ls)
    (hC : src.fetchComments t.id = Except.ok cs)
    (hP : src.fetchParent t.id = Except.ok p)
    (hCh : src.fetchChildren t.id = Except.ok ch)
    (hR : src.fetchRelated t.id = Except.ok rel) :
    enrich_ticket src t skip_labels = Except.ok
      { t with labels := if skip_labels then t.labels else ls,
               comments := cs, parent := p, children := ch, related_tickets := rel } := by
  cases skip_labels <;>
    simp [enrich_ticket, hL, hC, hP, hCh, hR, Bind.bind, Except.bind, Pure.pure, Except.pure]

theorem c6_enrich_frame_witness :
    enrich_ticket srcAllOkW tW false = Except.ok
      { tW with labels := if false then tW.labels else lsW, comments := [cW],
                parent := some rtRelW, children := [rtChildW],
                related_tickets := [rtRelW] } :=
  c6_enrich_frame srcAllOkW tW false lsW [cW] (some rtRelW) [rtChildW] [rtRelW]
    rfl rfl rfl rfl rfl

/-- C5: decoding fails exactly on a document with zero lines; every other
input yields a Ticket. -/
theorem c5_decode_total_iff (now : Timestamp) (s : Str) :
    ((∃ t, from_markdown now s = Except.ok t) ↔ rustLinesL s ≠ []) ∧
    (from_markdown now s = Except.error litMissingTitle ↔ rustLinesL s = []) := by
  unfold from_markdown
  cases h : rustLinesL s with
  | nil => simp
  | cons l ls => simp

/-- C7: the `%Y-%m-%d` date parse never succeeds, the fallback is always
the 2021-01-01 sentinel, and hence every comment of every decoded ticket
carries the sentinel timestamp. -/
theorem c7_comment_dates_sentinel (now : Timestamp) (s : Str) (t : Ticket)
    (h : from_markdown now s = Except.ok t) :
    (∀ d, parseFromStrYmd d = none) ∧ (∀ d, commentCreatedAt d = sentinel2021) ∧
    ∀ c ∈ t.comments, c.created_at = sentinel2021 := by
  refine ⟨fun d => rfl, fun d => rfl, ?_⟩
  unfold from_markdown at h
  cases hls : rustLinesL s with
  | nil => rw [hls] at h; exact absurd h (by simp)
  | cons l ls =>
    rw [hls] at h
    dsimp only at h
    rw [Except.ok.injEq] at h
    subst h
    exact pushPending_comments_sentinel _ (foldl_comments_sentinel ls {} (by simp))

theorem c7_comment_dates_sentinel_witness :
    from_markdown nowW docWrapW = Except.ok tWrapDecW ∧
    tWrapDecW.comments ≠ [] ∧
    ∀ c ∈ tWrapDecW.comments, c.created_at = sentinel2021 :=
  ⟨by decide, by decide,
    (c7_comment_dates_sentinel nowW docWrapW tWrapDecW (by decide)).2.2⟩

/-- C8: the decoder's branch that would populate `related_tickets` is
unreachable, so every decoded ticket has an empty `related_tickets`
list. -/
theorem c8_related_never_populated (now : Timestamp) (s : Str) (t : Ticket)
    (h : from_markdown now s = Except.ok t) : t.related_tickets = [] := by
  unfold from_markdown at h
  cases hls : rustLinesL s with
  | nil => rw [hls] at h; exact absurd h (by simp)
  | cons l ls =>
    rw [hls] at h
    dsimp only at h
    rw [Except.ok.injEq] at h
    subst h
    show (pushPending (List.foldl step {} ls)).related_tickets = []
    rw [pushPending_related, foldl_related]

theorem c8_related_never_populated_witness :
    from_markdown nowW (ticketMarkdown tW) = Except.ok (decodeImage nowW tW) ∧
    tW.related_tickets ≠ [] ∧
    (decodeImage nowW tW).related_tickets = [] :=
  ⟨decode_encode nowW tW (by decide), by decide,
    c8_related_never_populated nowW (ticketMarkdown tW) (decodeImage nowW tW)
      (decode_encode nowW tW (by decide))⟩


/-- C2: a document with one `- <title> (State: <state>)` entry under the
Related Tickets heading and one under the Child Tickets heading decodes
with both entries in `children` (in document order) and `related_tickets`
empty. -/
theorem c2_children_disambiguation (now : Timestamp) (rt1 rt2 : RelatedTicket)
    (h1 : benignEntry rt1) (h2 : benignEntry rt2) :
    from_markdown now
        (lineJoin [titleLineW, litRelatedHeading, entryLine rt1, litChildHeading]
          (entryLine rt2)) =
      Except.ok
        { id := [], title := ['T'], description := [], priority := 0, estimate := none,
          labels := [], url := [], state := [], created_at := now, updated_at := now,
          assignee := none, comments := [], parent := none,
          children := [decodedEntry 0 rt1, decodedEntry 1 rt2], related_tickets := [] } := by
  have hne2 : entryLine rt2 ≠ [] := by simp [entryLine, litDash]
  have hlines : rustLinesL
      (lineJoin [titleLineW, litRelatedHeading, entryLine rt1, litChildHeading]
        (entryLine rt2)) =
      [titleLineW, litRelatedHeading, entryLine rt1, litChildHeading, entryLine rt2] := by
    rw [rustLinesL_lineJoin _ _ ?hall, rustLinesL_single hne2 h2.1.1 h2.1.2]
    case hall =>
      simp only [List.forall_mem_cons]
      exact ⟨⟨by decide, by decide⟩, ⟨by decide, by decide⟩, ⟨h1.1.1, h1.1.2⟩,
        ⟨by decide, by decide⟩, by simp⟩
    rfl
  unfold from_markdown
  rw [hlines]
  dsimp only
  rw [List.foldl_cons, step_heading_related]
  rw [List.foldl_cons, step_entry _ rt1 rfl rfl h1]
  dsimp only
  rw [List.foldl_cons, step_heading_child]
  rw [List.foldl_cons, step_entry _ rt2 rfl rfl h2, List.foldl_nil]
  dsimp only
  rw [pushPending_empty _ rfl]
  have htitle : trimStartL litTitleTag titleLineW = ['T'] := by decide
  simp [htitle]

theorem c2_children_disambiguation_witness :
    benignEntry rtRelW ∧ benignEntry rtChildW ∧
    from_markdown nowW
        (lineJoin [titleLineW, litRelatedHeading, entryLine rtRelW, litChildHeading]
          (entryLine rtChildW)) =
      Except.ok
        { id := [], title := ['T'], description := [], priority := 0, estimate := none,
          labels := [], url := [], state := [], created_at := nowW, updated_at := nowW,
          assignee := none, comments := [], parent := none,
          children := [decodedEntry 0 rtRelW, decodedEntry 1 rtChildW],
          related_tickets := [] } :=
  ⟨by decide, by decide, c2_children_disambiguation nowW rtRelW rtChildW (by decide) (by decide)⟩


/-- C4 counterexample: decoding a document whose comment body wraps onto a
second physical line yields a single comment holding only the first line,
not the newline-joined concatenation of both. -/
theorem c4_wrapped_comment_counterexample :
    from_markdown nowW docWrapW = Except.ok tWrapDecW ∧
    tWrapDecW.comments.map Comment.body = [bodyW] ∧
    bodyW ≠ wrappedBodyW :=
  ⟨by decide, by decide, by decide⟩

/-- C4 (amended): while a comment is being accumulated, a line of the
Comments section that matches no decoder branch is ignored — it leaves the
parse state unchanged rather than being appended to the in-progress body —
so a wrapped body decodes to a single comment holding only its first
physical line. -/
theorem c4_nonmatching_line_ignored :
    (∀ (st : PState) (line : Str), st.in_description_section = false →
      noMetaTag line → noHeading line →
      (isPrefixL litDash line && containsL litParen line
        && containsL litParenColon line) = false →
      (isPrefixL litDash line && containsL litParenState line) = false →
      step st line = st) ∧
    from_markdown nowW docWrapW = Except.ok tWrapDecW ∧
    tWrapDecW.comments.map Comment.body = [bodyW] := by
  refine ⟨fun st line hdesc hm hh hcm hent => ?_, by decide, by decide⟩
  exact step_skip st line hdesc hm hh
    (by cases h1 : st.comment_section_start <;> simp [h1, hcm]) hent

theorem c4_nonmatching_line_ignored_witness :
    (∀ st : PState, st.in_description_section = false → step st wrapLineW = st) ∧
    from_markdown nowW docWrapW = Except.ok tWrapDecW :=
  ⟨fun st hdesc => c4_nonmatching_line_ignored.1 st wrapLineW hdesc (by decide) (by decide)
      (by decide) (by decide),
    c4_nonmatching_line_ignored.2.1⟩

/-- C9: an absent estimate renders as the literal `Not estimated` and
decodes back to an absent estimate; the estimate 3.0 renders as `3` and
decodes back to 3.0. -/
theorem c9_estimate_rendering :
    estimateField none = litNotEstimated ∧
    estimateField (some 3) = ['3'] ∧
    (∀ now : Timestamp, (from_markdown now (ticketMarkdown tEstNoneW)).map Ticket.estimate =
      Except.ok none) ∧
    (∀ now : Timestamp, (from_markdown now (ticketMarkdown tW)).map Ticket.estimate =
      Except.ok (some 3)) := by
  refine ⟨rfl, by decide, fun now => ?_, fun now => ?_⟩
  · rw [decode_encode now tEstNoneW (by decide)]; rfl
  · rw [decode_encode now tW (by decide)]; rfl

/-- C10: each of the four collections renders as the literal `None` when
empty, and decoding the encoded document of such a ticket yields empty
collections, not collections holding a literal `None` entry. -/
theorem c10_empty_collections :
    (∀ t : Ticket, t.labels = [] → labelsStr t = litNone) ∧
    (∀ t : Ticket, t.comments = [] → commentsStr t = litNone) ∧
    (∀ t : Ticket, t.related_tickets = [] → relatedStr t = litNone) ∧
    (∀ t : Ticket, t.children = [] → childrenStr t = litNone) ∧
    (∀ (now : Timestamp) (t : Ticket), benignTicket t → t.labels = [] → t.comments = [] →
      t.related_tickets = [] → t.children = [] →
      (from_markdown now (ticketMarkdown t)).map Ticket.labels = Except.ok [] ∧
      (from_markdown now (ticketMarkdown t)).map Ticket.comments = Except.ok [] ∧
      (from_markdown now (ticketMarkdown t)).map Ticket.children = Except.ok [] ∧
      (from_markdown now (ticketMarkdown t)).map Ticket.related_tickets = Except.ok []) := by
  refine ⟨fun t h => by simp [labelsStr, h], fun t h => by simp [commentsStr, h],
    fun t h => by simp [relatedStr, h], fun t h => by simp [childrenStr, h],
    fun now t hb h1 h2 h3 h4 => ?_⟩
  rw [decode_encode now t hb]
  refine ⟨?_, ?_, ?_, ?_⟩ <;>
    simp [decodeImage, h1, h2, h3, h4, decodedFrom, decodedEntriesFrom, List.enumFrom,
      Except.map]

theorem c10_empty_collections_witness :
    labelsStr tEmptyW = litNone ∧ commentsStr tEmptyW = litNone ∧
    relatedStr tEmptyW = litNone ∧ childrenStr tEmptyW = litNone ∧
    (from_markdown nowW (ticketMarkdown tEmptyW)).map Ticket.labels = Except.ok [] ∧
    (from_markdown nowW (ticketMarkdown tEmptyW)).map Ticket.comments = Except.ok [] ∧
    (from_markdown nowW (ticketMarkdown tEmptyW)).map Ticket.children = Except.ok [] ∧
    (from_markdown nowW (ticketMarkdown tEmptyW)).map Ticket.related_tickets =
      Except.ok [] := by
  obtain ⟨p1, p2, p3, p4, p5⟩ := c10_empty_collections
  obtain ⟨q1, q2, q3, q4⟩ := p5 nowW tEmptyW (by decide) rfl rfl rfl rfl
  exact ⟨p1 tEmptyW rfl, p2 tEmptyW rfl, p3 tEmptyW rfl, p4 tEmptyW rfl, q1, q2, q3, q4⟩

/-- C1 counterexample: a ticket meeting all of the claim's hypotheses
(single-line description, single-line comment bodies, non-empty labels,
children and related lists, no parent) decodes from its own encoding with
an empty `related_tickets` list, so it is not equal to the original on
that non-excepted field. -/
theorem c1_roundtrip_counterexample :
    tW.parent = none ∧ cleanStr tW.description ∧ (∀ c ∈ tW.comments, cleanStr c.body) ∧
    tW.labels ≠ [] ∧ tW.children ≠ [] ∧ tW.related_tickets ≠ [] ∧
    from_markdown nowW (ticketMarkdown tW) = Except.ok (decodeImage nowW tW) ∧
    (decodeImage nowW tW).related_tickets ≠ tW.related_tickets :=
  ⟨rfl, by decide, by decide, by decide, by decide, by decide,
    decode_encode nowW tW (by decide), by decide⟩

/-- C1 (amended): for a benign ticket — title single-line and not bearing
the title tag; id, state, url and the rendered priority, estimate and
labels single-line and trim-stable, with estimate and labels parsing back
exactly; description single-line and free of heading and metadata tags;
every comment with a user, a nonempty trim-stable single-line body and a
delimiter-collision-free encoded line; every reference with title and
state free of the entry delimiters — with no parent and non-empty labels,
children and related lists, decoding the encoded document yields exactly
`decodeImage`: scalar fields and labels survive; the description gains a
trailing newline; timestamps become decode time; the assignee is dropped;
comment ids are renumbered, comment dates degrade to the 2021 sentinel;
and the related and child references all land in `children` with
placeholder ids, leaving `related_tickets` empty. -/
theorem c1_roundtrip_amended (now : Timestamp) (t : Ticket) (hb : benignTicket t)
    (_hparent : t.parent = none) (_hlabels : t.labels ≠ []) (_hchildren : t.children ≠ [])
    (_hrelated : t.related_tickets ≠ []) :
    from_markdown now (ticketMarkdown t) = Except.ok (decodeImage now t) :=
  decode_encode now t hb

theorem c1_roundtrip_amended_witness :
    benignTicket tW ∧ tW.parent = none ∧ tW.labels ≠ [] ∧ tW.children ≠ [] ∧
    tW.related_tickets ≠ [] ∧
    from_markdown nowW (ticketMarkdown tW) = Except.ok (decodeImage nowW tW) :=
  ⟨by decide, rfl, by decide, by decide, by decide,
    c1_roundtrip_amended nowW tW (by decide) rfl (by decide) (by decide) (by decide)⟩


end LinearAgent
